import Mathlib

/-!
# A reader-writer-locked integer cache (`main.go`)

Shallow embedding of the `Cache` type of `main.go` and of its operations
`NewCache`, `Get` and `Set`, together with the two loops of `main`.

* Go `int` keys and values are modelled as `Int`; the cache performs no
  arithmetic on them, so the machine width plays no role.
* A Go `map[int]int` is an optional record (`none` is the nil map) holding
  the space reserved by `make` and the entries, keys unique.
* `sync.RWMutex` is a reader count and a writer flag, with the behaviour its
  documentation gives: `RLock` waits for a writer, `Lock` waits for a writer
  and for all readers, releasing a lock that is not held is a fatal error.
* Sequential calls: `Cache.Get` and `Cache.Set` run a whole call.  A lock
  operation that would wait forever in a sequential run is the fault
  `blocked`.  Every call returns the events it performed, in order: the lock
  operations and the lines written to standard output.
* Concurrent calls: a `System` is one cache shared by goroutines; a schedule
  picks, step by step, the goroutine that executes its next statement.
-/

namespace WbCache

/-! ## Faults and events -/

/-- Ways in which a call can fail to return. -/
inductive Fault where
  /-- The goroutine waits on the mutex and nobody else runs. -/
  | blocked
  /-- Go run-time panic: assignment to entry in nil map. -/
  | nilMapWrite
  /-- Go fatal error: sync: RUnlock of unlocked RWMutex. -/
  | rUnlockOfUnlocked
  /-- Go fatal error: sync: Unlock of unlocked RWMutex. -/
  | unlockOfUnlocked
deriving DecidableEq

/-- Observable steps of a call, in program order. -/
inductive Event where
  | rlock
  | runlock
  | lock
  | unlock
  | println (line : String)
  | printf (format : String) (args : List Int)
deriving DecidableEq

/-- Lines that `fmt.Println` wrote during a trace. -/
def notifications : List Event → List String
  | [] => []
  | Event.println line :: rest => line :: notifications rest
  | _ :: rest => notifications rest

/-- State of a `sync.RWMutex`: how many readers hold it, whether a writer does.
Go also makes new readers wait once a writer is waiting; that only removes
schedules, so every state reached there is reached here. -/
structure RWMutex where
  readers : Nat
  writer : Bool
deriving DecidableEq

namespace RWMutex

/-- The zero value: an unlocked mutex. -/
def free : RWMutex := { readers := 0, writer := false }

/-- Shared acquisition: waits while a writer holds the mutex. -/
def RLock (m : RWMutex) : Except Fault RWMutex :=
  if m.writer then .error .blocked else .ok { m with readers := m.readers + 1 }

/-- Shared release: fatal when no reader holds the mutex. -/
def RUnlock (m : RWMutex) : Except Fault RWMutex :=
  if m.readers = 0 then .error .rUnlockOfUnlocked else .ok { m with readers := m.readers - 1 }

/-- Exclusive acquisition: waits while a writer or any reader holds the mutex. -/
def Lock (m : RWMutex) : Except Fault RWMutex :=
  if m.writer || m.readers != 0 then .error .blocked else .ok { m with writer := true }

/-- Exclusive release: fatal when no writer holds the mutex. -/
def Unlock (m : RWMutex) : Except Fault RWMutex :=
  if m.writer then .ok { m with writer := false } else .error .unlockOfUnlocked

end RWMutex

/-! ## `map[int]int` -/

/-- First value stored under `key`, if any. -/
def lookupEntries : List (Int × Int) → Int → Option Int
  | [], _ => none
  | (k, v) :: rest, key => if k = key then some v else lookupEntries rest key

/-- Overwrite the entry of `key` in place, or append a new entry. -/
def storeEntries : List (Int × Int) → Int → Int → List (Int × Int)
  | [], key, value => [(key, value)]
  | (k, v) :: rest, key, value =>
    if k = key then (key, value) :: rest else (k, v) :: storeEntries rest key value

/-- An allocated Go map: the space `make` reserved and the entries. -/
structure GoMap where
  reserved : Nat
  entries : List (Int × Int)
deriving DecidableEq

namespace GoMap

/-- Go `make(map[int]int, hint)`: an empty map; a negative run-time hint reserves nothing. -/
def make (hint : Int) : Option GoMap :=
  some { reserved := hint.toNat, entries := [] }

/-- Go `value, ok := m[key]`; a nil map reads as empty. -/
def index (m : Option GoMap) (key : Int) : Int × Bool :=
  match m with
  | none => (0, false)
  | some g =>
    match lookupEntries g.entries key with
    | none => (0, false)
    | some v => (v, true)

/-- Go `m[key] = value`; panics on a nil map. -/
def assign (m : Option GoMap) (key value : Int) : Except Fault (Option GoMap) :=
  match m with
  | none => .error .nilMapWrite
  | some g => .ok (some { g with entries := storeEntries g.entries key value })

/-- The mapping a Go map denotes. -/
def find (m : Option GoMap) (key : Int) : Option Int :=
  match m with
  | none => none
  | some g => lookupEntries g.entries key

end GoMap

/-! ## `Cache`, `NewCache`, `Get`, `Set` -/

/-- Go `type Cache struct { mu sync.RWMutex; data map[int]int }`. -/
structure Cache where
  mu : RWMutex
  data : Option GoMap
deriving DecidableEq

/-- Go `NewCache`: `&Cache{data: make(map[int]int, capacity)}`, the mutex at its zero value. -/
def NewCache (capacity : Int) : Cache :=
  { mu := RWMutex.free, data := GoMap.make capacity }

namespace Cache

/-- Go `(*Cache).Get`: shared lock, comma-ok lookup, `Println` and `0` on a miss,
the deferred `RUnlock` runs last on either path. -/
def Get (c : Cache) (key : Int) : Except Fault (Int × List Event × Cache) := do
  let mu1 ← c.mu.RLock
  let (value, ok) := GoMap.index c.data key
  if !ok then
    let mu2 ← mu1.RUnlock
    pure (0, [Event.rlock, Event.println "Cache miss", Event.runlock], { c with mu := mu2 })
  else
    let mu2 ← mu1.RUnlock
    pure (value, [Event.rlock, Event.runlock], { c with mu := mu2 })

/-- Go `(*Cache).Set`: exclusive lock, map assignment, unlock. -/
def Set (c : Cache) (key value : Int) : Except Fault (List Event × Cache) := do
  let mu1 ← c.mu.Lock
  let data1 ← GoMap.assign c.data key value
  let mu2 ← mu1.Unlock
  pure ([Event.lock, Event.unlock], { mu := mu2, data := data1 })

/-- The mapping held by the cache. -/
def find (c : Cache) (key : Int) : Option Int := GoMap.find c.data key

/-- A cache on which a sequential caller can run: nobody holds the mutex and
the map is allocated.  `NewCache` returns such a cache and completed calls keep it so. -/
def Ready (c : Cache) : Prop := c.mu = RWMutex.free ∧ c.data.isSome = true

instance (c : Cache) : Decidable c.Ready := by
  unfold Ready; exact inferInstance

end Cache

/-! ## Sequences of calls -/

/-- One call on the cache. -/
inductive Op where
  | get (key : Int)
  | set (key value : Int)
deriving DecidableEq

/-- The key a call names. -/
def Op.key : Op → Int
  | .get key => key
  | .set key _ => key

/-- Whether a call is a `Set`. -/
def Op.isSet : Op → Bool
  | .get _ => false
  | .set _ _ => true

/-- What a call shows its caller: the returned value (none for `Set`) and the events. -/
structure Obs where
  ret : Option Int
  trace : List Event
deriving DecidableEq

namespace Cache

/-- Perform one call. -/
def call (c : Cache) : Op → Except Fault (Obs × Cache)
  | .get key => do
    let (value, trace, c1) ← c.Get key
    pure ({ ret := some value, trace := trace }, c1)
  | .set key value => do
    let (trace, c1) ← c.Set key value
    pure ({ ret := none, trace := trace }, c1)

/-- Perform calls one after the other, collecting what each one shows. -/
def run (c : Cache) : List Op → Except Fault (List Obs × Cache)
  | [] => pure ([], c)
  | op :: rest => do
    let (o, c1) ← c.call op
    let (os, c2) ← c1.run rest
    pure (o :: os, c2)

end Cache

/-- The calls `Set(k, v)` for the listed pairs, in order. -/
def setOps (sets : List (Int × Int)) : List Op :=
  sets.map fun p => Op.set p.1 p.2

/-- A cache that stores `0` under key `3`, with two readers inside `Get`. -/
def zeroStored : Cache :=
  { mu := { readers := 2, writer := false }, data := some { reserved := 0, entries := [(3, 0)] } }

/-- A ready cache that stores `0` under key `3` and `7` under key `5`. -/
def stocked : Cache :=
  { mu := RWMutex.free, data := some { reserved := 2, entries := [(3, 0), (5, 7)] } }

/-- The same entries as `stocked` while another goroutine is inside `Get`. -/
def stockedBusy : Cache :=
  { mu := { readers := 1, writer := false },
    data := some { reserved := 2, entries := [(3, 0), (5, 7)] } }

/-! ## The two loops of `main` -/

/-- The writer goroutine of `main`, `for i := 0; i < 30; i++ { cache.Set(i, i) }`,
over the remaining values of `i`. -/
def writerFrom (c : Cache) : List Nat → Except Fault (List Event × Cache)
  | [] => pure ([], c)
  | i :: rest => do
    let (t, c1) ← c.Set i i
    let (ts, c2) ← writerFrom c1 rest
    pure (t ++ ts, c2)

/-- The writer goroutine of `main`, run to its end. -/
def writer (c : Cache) : Except Fault (List Event × Cache) :=
  writerFrom c (List.range 30)

/-- The reader goroutine of `main` over the remaining values of `i`: after the sleep,
`value := cache.Get(i)` and a `Printf` of `i` and `value`.  Each round is recorded as
the value returned and the events of the round. -/
def readerFrom (c : Cache) : List Nat → Except Fault (List (Int × List Event) × Cache)
  | [] => pure ([], c)
  | i :: rest => do
    let (value, t, c1) ← c.Get i
    let round := (value, t ++ [Event.printf "value of map[%d] is %d\n" [(i : Int), value]])
    let (rounds, c2) ← readerFrom c1 rest
    pure (round :: rounds, c2)

/-- The reader goroutine of `main`, run to its end. -/
def reader (c : Cache) : Except Fault (List (Int × List Event) × Cache) :=
  readerFrom c (List.range 30)

/-- The cache that holds `i ↦ i` for `i = 0..29`, in insertion order. -/
def demoCache : Cache :=
  { mu := RWMutex.free,
    data := some { reserved := 30, entries := (List.range 30).map fun i => ((i : Int), (i : Int)) } }

/-! ## Goroutines interleaved on one cache -/

/-- Where a goroutine stands inside a call of `Get` or `Set`; each frame is the
statement it executes next. -/
inductive Frame where
  /-- In `Get`, line 24: about to `c.mu.RLock()`. -/
  | getRLock (key : Int)
  /-- In `Get`, line 26: holds the shared lock, about to read `c.data[key]`. -/
  | getLookup (key : Int)
  /-- In `Get`, line 28: holds the shared lock, about to print "Cache miss". -/
  | getPrintln
  /-- In `Get`, lines 29 and 31: result set, the deferred `c.mu.RUnlock()` runs next. -/
  | getRUnlock (result : Int)
  /-- In `Set`, line 37: about to `c.mu.Lock()`. -/
  | setLock (key value : Int)
  /-- In `Set`, line 38: holds the exclusive lock, about to assign `c.data[key]`. -/
  | setAssign (key value : Int)
  /-- In `Set`, line 39: holds the exclusive lock, about to `c.mu.Unlock()`. -/
  | setUnlock
deriving DecidableEq

/-- Frames of `Get` between `RLock` and `RUnlock`. -/
def Frame.reading : Frame → Bool
  | .getLookup _ => true
  | .getPrintln => true
  | .getRUnlock _ => true
  | _ => false

/-- Frames of `Set` between `Lock` and `Unlock`. -/
def Frame.writing : Frame → Bool
  | .setAssign _ _ => true
  | .setUnlock => true
  | _ => false

/-- The first frame of a call. -/
def Op.enter : Op → Frame
  | .get key => Frame.getRLock key
  | .set key value => Frame.setLock key value

/-- A goroutine that makes calls on the cache one after the other. -/
structure Goroutine where
  /-- The call in progress, if any. -/
  frame : Option Frame
  /-- The calls still to make. -/
  todo : List Op
  /-- The values its completed `Get` calls returned, latest first. -/
  returned : List Int
deriving DecidableEq

namespace Goroutine

/-- A goroutine about to run the given calls. -/
def spawn (calls : List Op) : Goroutine := { frame := none, todo := calls, returned := [] }

/-- Whether the goroutine is inside the critical section of `Get`. -/
def reading (g : Goroutine) : Bool :=
  match g.frame with
  | some f => f.reading
  | none => false

/-- Whether the goroutine is inside the critical section of `Set`. -/
def writing (g : Goroutine) : Bool :=
  match g.frame with
  | some f => f.writing
  | none => false

/-- One statement of the goroutine on the shared cache: the new cache, the new
goroutine state and the events performed; `none` when it has nothing left to do. -/
def step (c : Cache) (g : Goroutine) : Option (Except Fault (Cache × Goroutine × List Event)) :=
  match g.frame with
  | none =>
    match g.todo with
    | [] => none
    | op :: rest => some (.ok (c, { g with frame := some op.enter, todo := rest }, []))
  | some (.getRLock key) => some do
    let mu1 ← c.mu.RLock
    pure ({ c with mu := mu1 }, { g with frame := some (.getLookup key) }, [Event.rlock])
  | some (.getLookup key) =>
    let (value, ok) := GoMap.index c.data key
    if !ok then some (.ok (c, { g with frame := some .getPrintln }, []))
    else some (.ok (c, { g with frame := some (.getRUnlock value) }, []))
  | some .getPrintln =>
    some (.ok (c, { g with frame := some (.getRUnlock 0) }, [Event.println "Cache miss"]))
  | some (.getRUnlock result) => some do
    let mu2 ← c.mu.RUnlock
    pure ({ c with mu := mu2 }, { g with frame := none, returned := result :: g.returned },
      [Event.runlock])
  | some (.setLock key value) => some do
    let mu1 ← c.mu.Lock
    pure ({ c with mu := mu1 }, { g with frame := some (.setAssign key value) }, [Event.lock])
  | some (.setAssign key value) => some do
    let data1 ← GoMap.assign c.data key value
    pure ({ c with data := data1 }, { g with frame := some .setUnlock }, [])
  | some .setUnlock => some do
    let mu2 ← c.mu.Unlock
    pure ({ c with mu := mu2 }, { g with frame := none }, [Event.unlock])

end Goroutine

/-- Goroutines sharing one cache. -/
structure System where
  cache : Cache
  goroutines : List Goroutine
  /-- Events performed so far, in order. -/
  output : List Event
  /-- The panic or fatal error that ended the program, if any. -/
  crashed : Option Fault
deriving DecidableEq

namespace System

/-- One cache made by `NewCache(capacity)` and one goroutine per list of calls. -/
def start (capacity : Int) (programs : List (List Op)) : System :=
  { cache := NewCache capacity, goroutines := programs.map Goroutine.spawn, output := [],
    crashed := none }

/-- The scheduler lets goroutine `i` execute one statement.  Nothing changes when
there is no such goroutine, when it has finished, when it waits for the mutex, or
when the program has crashed. -/
def step (s : System) (i : Nat) : System :=
  if s.crashed.isSome then s
  else
    match s.goroutines[i]? with
    | none => s
    | some g =>
      match g.step s.cache with
      | none => s
      | some (.error .blocked) => s
      | some (.error f) => { s with crashed := some f }
      | some (.ok (c, g1, events)) =>
        { s with cache := c, goroutines := s.goroutines.set i g1, output := s.output ++ events }

/-- Execute a schedule: the goroutine picked at each step. -/
def exec (s : System) : List Nat → System
  | [] => s
  | i :: rest => (s.step i).exec rest

/-- How many goroutines are inside the critical section of `Get`. -/
def readers (s : System) : Nat := s.goroutines.countP Goroutine.reading

/-- How many goroutines are inside the critical section of `Set`. -/
def writers (s : System) : Nat := s.goroutines.countP Goroutine.writing

/-- Writer mutual exclusion: no `Set` is inside its critical section, or exactly one
is and no `Get` is. -/
def Exclusive (s : System) : Prop :=
  s.writers = 0 ∨ (s.writers = 1 ∧ s.readers = 0)

instance (s : System) : Decidable s.Exclusive := by
  unfold Exclusive; exact inferInstance

/-- The mutex agrees with the goroutines: the reader count is the number of
goroutines inside `Get`, the writer flag is set exactly when one goroutine is inside
`Set` and then none is inside `Get`; the map is allocated and nothing has crashed. -/
def Consistent (s : System) : Prop :=
  s.crashed = none ∧ s.cache.data.isSome = true ∧ s.cache.mu.readers = s.readers ∧
    ((s.cache.mu.writer = false ∧ s.writers = 0) ∨
      (s.cache.mu.writer = true ∧ s.writers = 1 ∧ s.readers = 0))

end System

/-! ## Entry lists -/

theorem lookupEntries_store_same (l : List (Int × Int)) (k v : Int) :
    lookupEntries (storeEntries l k v) k = some v := by
  induction l with
  | nil => simp [storeEntries, lookupEntries]
  | cons p rest ih =>
    obtain ⟨a, b⟩ := p
    by_cases h : a = k
    · simp [storeEntries, lookupEntries, h]
    · simp [storeEntries, lookupEntries, h, ih]

theorem lookupEntries_store_other (l : List (Int × Int)) (k v k' : Int) (hk : k' ≠ k) :
    lookupEntries (storeEntries l k v) k' = lookupEntries l k' := by
  induction l with
  | nil =>
    have : ¬ k = k' := fun h => hk h.symm
    simp [storeEntries, lookupEntries, this]
  | cons p rest ih =>
    obtain ⟨a, b⟩ := p
    by_cases h : a = k
    · have : ¬ k = k' := fun h => hk h.symm
      simp [storeEntries, lookupEntries, h, this]
    · by_cases h' : a = k'
      · subst h'
        simp [storeEntries, lookupEntries, h]
      · simp [storeEntries, lookupEntries, h, h', ih]

theorem storeEntries_twice (l : List (Int × Int)) (k v1 v2 : Int) :
    storeEntries (storeEntries l k v1) k v2 = storeEntries l k v2 := by
  induction l with
  | nil => simp [storeEntries]
  | cons p rest ih =>
    obtain ⟨a, b⟩ := p
    by_cases h : a = k
    · simp [storeEntries, h]
    · simp [storeEntries, h, ih]

/-! ## What one call does -/

theorem RWMutex.rlock_runlock (m : RWMutex) (hw : m.writer = false) :
    (m.RLock >>= fun m1 => m1.RUnlock) = .ok m := by
  cases m with
  | mk r w =>
    simp only at hw
    subst hw
    simp [RWMutex.RLock, RWMutex.RUnlock, bind, Except.bind]

/-- With no writer holding the mutex, `Get` returns and leaves the cache as it was:
the stored value and no output on a hit, `0` and one line on a miss. -/
theorem Cache.Get_eq (c : Cache) (key : Int) (hw : c.mu.writer = false) :
    c.Get key =
      match c.find key with
      | some v => .ok (v, [Event.rlock, Event.runlock], c)
      | none => .ok (0, [Event.rlock, Event.println "Cache miss", Event.runlock], c) := by
  obtain ⟨⟨r, w⟩, data⟩ := c
  simp only at hw
  subst hw
  cases data with
  | none =>
    simp [Cache.Get, Cache.find, GoMap.find, GoMap.index, RWMutex.RLock, RWMutex.RUnlock,
      bind, Except.bind, pure, Except.pure]
  | some g =>
    cases h : lookupEntries g.entries key <;>
    simp [Cache.Get, Cache.find, GoMap.find, GoMap.index, RWMutex.RLock, RWMutex.RUnlock,
      bind, Except.bind, pure, Except.pure, h]

/-- A blocked reader: with a writer holding the mutex, `Get` does not return. -/
theorem Cache.Get_blocked (c : Cache) (key : Int) (hw : c.mu.writer = true) :
    c.Get key = .error Fault.blocked := by
  simp [Cache.Get, RWMutex.RLock, hw, bind, Except.bind]

/-- On a ready cache over the allocated map `g`, `Set` returns, the mutex is free again
and the entry of the key is stored. -/
theorem Cache.Set_eq (g : GoMap) (key value : Int) :
    Cache.Set { mu := RWMutex.free, data := some g } key value =
      .ok ([Event.lock, Event.unlock],
        { mu := RWMutex.free,
          data := some { g with entries := storeEntries g.entries key value } }) := by
  simp [Cache.Set, RWMutex.Lock, RWMutex.Unlock, RWMutex.free, GoMap.assign,
    bind, Except.bind, pure, Except.pure]

theorem Cache.Ready.exists_map {c : Cache} (hc : c.Ready) :
    ∃ g, c = { mu := RWMutex.free, data := some g } := by
  obtain ⟨mu, data⟩ := c
  obtain ⟨h1, h2⟩ := hc
  simp only at h1 h2
  cases data with
  | none => simp at h2
  | some g => exact ⟨g, by rw [h1]⟩

theorem Cache.ready_mk (g : GoMap) : Cache.Ready { mu := RWMutex.free, data := some g } :=
  ⟨rfl, rfl⟩

theorem Cache.Ready.writer_false {c : Cache} (hc : c.Ready) : c.mu.writer = false := by
  rw [hc.1]; rfl

theorem NewCache_ready (capacity : Int) : (NewCache capacity).Ready := ⟨rfl, rfl⟩

theorem NewCache_find (capacity key : Int) : (NewCache capacity).find key = none := rfl

/-- On a ready cache `Set` returns a ready cache that maps the key to the value and
every other key as before. -/
theorem Cache.Set_ready {c : Cache} (hc : c.Ready) (key value : Int) :
    ∃ c1, c.Set key value = .ok ([Event.lock, Event.unlock], c1) ∧ c1.Ready ∧
      c1.find key = some value ∧ ∀ k', k' ≠ key → c1.find k' = c.find k' := by
  obtain ⟨g, rfl⟩ := hc.exists_map
  refine ⟨_, Cache.Set_eq g key value, Cache.ready_mk _, ?_, ?_⟩
  · simp [Cache.find, GoMap.find, lookupEntries_store_same]
  · intro k' hk'
    simp [Cache.find, GoMap.find, lookupEntries_store_other _ _ _ _ hk']

/-- On a ready cache every call returns, and the cache is ready afterwards. -/
theorem Cache.call_ready {c : Cache} (hc : c.Ready) (op : Op) :
    ∃ o c1, c.call op = .ok (o, c1) ∧ c1.Ready := by
  cases op with
  | get key =>
    have h := Cache.Get_eq c key hc.writer_false
    cases hf : c.find key with
    | none =>
      rw [hf] at h
      exact ⟨{ ret := some 0, trace := [Event.rlock, Event.println "Cache miss", Event.runlock] },
        c, by simp [Cache.call, h, bind, Except.bind, pure, Except.pure], hc⟩
    | some v =>
      rw [hf] at h
      exact ⟨{ ret := some v, trace := [Event.rlock, Event.runlock] }, c,
        by simp [Cache.call, h, bind, Except.bind, pure, Except.pure], hc⟩
  | set key value =>
    obtain ⟨c1, h, hr, -, -⟩ := Cache.Set_ready hc key value
    exact ⟨{ ret := none, trace := [Event.lock, Event.unlock] }, c1,
      by simp [Cache.call, h, bind, Except.bind, pure, Except.pure], hr⟩

theorem Cache.call_get_ok {c c1 : Cache} {key v : Int} {tr : List Event}
    (h : c.Get key = .ok (v, tr, c1)) :
    c.call (Op.get key) = .ok (Obs.mk (some v) tr, c1) := by
  simp [Cache.call, h, bind, Except.bind, pure, Except.pure]

theorem Cache.call_set_ok {c c1 : Cache} {key value : Int} {tr : List Event}
    (h : c.Set key value = .ok (tr, c1)) :
    c.call (Op.set key value) = .ok (Obs.mk none tr, c1) := by
  simp [Cache.call, h, bind, Except.bind, pure, Except.pure]

theorem Cache.run_cons_ok {c c1 c2 : Cache} {op : Op} {rest : List Op} {o : Obs}
    {os : List Obs} (h1 : c.call op = .ok (o, c1)) (h2 : c1.run rest = .ok (os, c2)) :
    c.run (op :: rest) = .ok (o :: os, c2) := by
  simp [Cache.run, h1, h2, bind, Except.bind, pure, Except.pure]

theorem Cache.run_append_ok {c c1 c2 : Cache} {xs ys : List Op} {os1 os2 : List Obs}
    (h1 : c.run xs = .ok (os1, c1)) (h2 : c1.run ys = .ok (os2, c2)) :
    c.run (xs ++ ys) = .ok (os1 ++ os2, c2) := by
  induction xs generalizing c os1 with
  | nil =>
    simp [Cache.run, pure, Except.pure] at h1
    obtain ⟨rfl, rfl⟩ := h1
    simpa using h2
  | cons op rest ih =>
    cases hc : c.call op with
    | error f => simp [Cache.run, hc, bind, Except.bind] at h1
    | ok r =>
      obtain ⟨o, cm⟩ := r
      cases hr : cm.run rest with
      | error f => simp [Cache.run, hc, hr, bind, Except.bind] at h1
      | ok r2 =>
        obtain ⟨os, ce⟩ := r2
        simp [Cache.run, hc, hr, bind, Except.bind, pure, Except.pure] at h1
        obtain ⟨rfl, rfl⟩ := h1
        have := ih hr
        simpa using Cache.run_cons_ok hc this

/-- On a ready cache every sequence of calls runs to its end. -/
theorem Cache.run_ready {c : Cache} (hc : c.Ready) (ops : List Op) :
    ∃ os c1, c.run ops = .ok (os, c1) ∧ c1.Ready := by
  induction ops generalizing c with
  | nil => exact ⟨[], c, rfl, hc⟩
  | cons op rest ih =>
    obtain ⟨o, c1, h1, hr1⟩ := Cache.call_ready hc op
    obtain ⟨os, c2, h2, hr2⟩ := ih hr1
    exact ⟨o :: os, c2, Cache.run_cons_ok h1 h2, hr2⟩

/-- A run of `Set` calls that never name `k` leaves the entry of `k` alone. -/
theorem Cache.run_setOps_find {c : Cache} (hc : c.Ready) (k : Int) (sets : List (Int × Int))
    (hsets : ∀ p ∈ sets, p.1 ≠ k) :
    ∃ os c1, c.run (setOps sets) = .ok (os, c1) ∧ c1.Ready ∧ c1.find k = c.find k := by
  induction sets generalizing c with
  | nil => exact ⟨[], c, rfl, hc, rfl⟩
  | cons p rest ih =>
    obtain ⟨c1, h1, hr1, -, hother⟩ := Cache.Set_ready hc p.1 p.2
    have hp : p.1 ≠ k := hsets p (List.mem_cons_self _ _)
    obtain ⟨os, c2, h2, hr2, hf2⟩ := ih hr1 (fun q hq => hsets q (List.mem_cons_of_mem _ hq))
    have hcall : c.call (Op.set p.1 p.2) =
        .ok ({ ret := none, trace := [Event.lock, Event.unlock] }, c1) := by
      simp [Cache.call, h1, bind, Except.bind, pure, Except.pure]
    refine ⟨{ ret := none, trace := [Event.lock, Event.unlock] } :: os, c2, ?_, hr2, ?_⟩
    · exact Cache.run_cons_ok hcall h2
    · rw [hf2]; exact hother k (fun h => hp h.symm)

theorem Cache.Get_hit {c : Cache} (hw : c.mu.writer = false) {k v : Int}
    (hf : c.find k = some v) : c.Get k = .ok (v, [Event.rlock, Event.runlock], c) := by
  rw [Cache.Get_eq c k hw, hf]

theorem Cache.Get_miss {c : Cache} (hw : c.mu.writer = false) {k : Int}
    (hf : c.find k = none) :
    c.Get k = .ok (0, [Event.rlock, Event.println "Cache miss", Event.runlock], c) := by
  rw [Cache.Get_eq c k hw, hf]

/-! ## Goroutines: the mutex agrees with the frames -/

theorem countP_set_balance {α : Type} (p : α → Bool) (l : List α) (i : Nat) (a b : α)
    (h : l[i]? = some a) :
    (l.set i b).countP p + (p a).toNat = l.countP p + (p b).toNat := by
  induction l generalizing i with
  | nil => simp at h
  | cons x rest ih =>
    cases i with
    | zero =>
      simp only [List.getElem?_cons_zero, Option.some.injEq] at h
      subst h
      simp only [List.set_cons_zero, List.countP_cons]
      cases p x <;> cases p b <;> simp
    | succ n =>
      simp only [List.getElem?_cons_succ] at h
      have := ih n h
      simp only [List.set_cons_succ, List.countP_cons]
      omega

theorem System.start_consistent (capacity : Int) (programs : List (List Op)) :
    (System.start capacity programs).Consistent := by
  have hr : ∀ ps : List (List Op), (ps.map Goroutine.spawn).countP Goroutine.reading = 0 := by
    intro ps
    induction ps with
    | nil => rfl
    | cons q rest ih => simp [List.countP_cons, Goroutine.spawn, Goroutine.reading]
  have hw : ∀ ps : List (List Op), (ps.map Goroutine.spawn).countP Goroutine.writing = 0 := by
    intro ps
    induction ps with
    | nil => rfl
    | cons q rest ih => simp [List.countP_cons, Goroutine.spawn, Goroutine.writing]
  refine ⟨rfl, rfl, ?_, Or.inl ⟨rfl, ?_⟩⟩
  · simp [System.start, System.readers, hr, NewCache, RWMutex.free]
  · simp [System.start, System.writers, hw]

theorem System.consistent_iff (s : System) :
    s.Consistent ↔
      s.crashed = none ∧ s.cache.data.isSome = true ∧ s.cache.mu.readers = s.readers ∧
        s.cache.mu.writer.toNat = s.writers ∧ (s.cache.mu.writer = true → s.readers = 0) := by
  unfold System.Consistent
  cases hw : s.cache.mu.writer
  · constructor
    · rintro ⟨h1, h2, h3, ⟨-, h4⟩ | ⟨h4, -⟩⟩
      · exact ⟨h1, h2, h3, h4.symm, fun h => by cases h⟩
      · cases h4
    · rintro ⟨h1, h2, h3, h4, -⟩
      exact ⟨h1, h2, h3, Or.inl ⟨rfl, h4.symm⟩⟩
  · constructor
    · rintro ⟨h1, h2, h3, ⟨h4, -⟩ | ⟨-, h4, h5⟩⟩
      · cases h4
      · exact ⟨h1, h2, h3, h4.symm, fun _ => h5⟩
    · rintro ⟨h1, h2, h3, h4, h5⟩
      exact ⟨h1, h2, h3, Or.inr ⟨rfl, h4.symm, h5 rfl⟩⟩

/-- Replacing goroutine `i` keeps the agreement when the mutex changes by exactly what
the goroutine's move into or out of a critical section accounts for. -/
theorem System.consistent_set (r r1 : Nat) (w w1 : Bool) (data data1 : Option GoMap)
    (gs : List Goroutine) (i : Nat) (g g1 : Goroutine) (out out1 : List Event)
    (hg : gs[i]? = some g)
    (h : System.Consistent (System.mk (Cache.mk (RWMutex.mk r w) data) gs out none))
    (hd : data1.isSome = true)
    (hr : r1 + g.reading.toNat = r + g1.reading.toNat)
    (hw : w1.toNat + g.writing.toNat = w.toNat + g1.writing.toNat)
    (hx : w1 = true → r1 = 0) :
    System.Consistent
      (System.mk (Cache.mk (RWMutex.mk r1 w1) data1) (gs.set i g1) out1 none) := by
  rw [System.consistent_iff] at h ⊢
  obtain ⟨-, -, h3, h4, -⟩ := h
  simp only [System.readers, System.writers] at h3 h4 ⊢
  have e1 := countP_set_balance Goroutine.reading gs i g g1 hg
  have e2 := countP_set_balance Goroutine.writing gs i g g1 hg
  refine ⟨trivial, hd, by omega, by omega, fun e => ?_⟩
  have := hx e
  omega

/-- A goroutine inside a critical section is counted. -/
theorem countP_pos_of_getElem {α : Type} (p : α → Bool) (l : List α) (i : Nat) (a : α)
    (h : l[i]? = some a) (hp : p a = true) : 0 < l.countP p := by
  obtain ⟨hi, rfl⟩ := List.getElem?_eq_some.1 h
  exact List.countP_pos_iff.2 ⟨l[i], List.getElem_mem hi, hp⟩

/-- Every statement a goroutine executes keeps the mutex in agreement with the frames;
in particular no step panics. -/
theorem System.step_consistent (s : System) (i : Nat) (h : s.Consistent) :
    (s.step i).Consistent := by
  have hc := (System.consistent_iff s).1 h
  obtain ⟨⟨⟨r, w⟩, data⟩, gs, out, crashed⟩ := s
  obtain ⟨hcr, hdata, hr, h4, h5⟩ := hc
  simp only [System.readers, System.writers] at hcr hdata hr h4 h5
  subst hcr
  have h5r : w = true → r = 0 := fun e => hr.trans (h5 e)
  cases hg : gs[i]? with
  | none => simpa [System.step, hg] using h
  | some g =>
    have hset := fun r1 w1 data1 g1 out1 =>
      System.consistent_set r r1 w w1 data data1 gs i g g1 out out1 hg h
    have hrpos := countP_pos_of_getElem Goroutine.reading gs i g hg
    have hwpos := countP_pos_of_getElem Goroutine.writing gs i g hg
    obtain ⟨frame, todo, ret⟩ := g
    cases frame with
    | none =>
      cases todo with
      | nil => simpa [System.step, hg, Goroutine.step] using h
      | cons op rest =>
        have hstep : System.step (System.mk (Cache.mk (RWMutex.mk r w) data) gs out none) i =
            System.mk (Cache.mk (RWMutex.mk r w) data)
              (gs.set i (Goroutine.mk (some op.enter) rest ret)) out none := by
          simp [System.step, hg, Goroutine.step]
        rw [hstep]
        cases op <;>
          exact hset _ _ _ _ _ hdata (by simp [Goroutine.reading, Frame.reading, Op.enter])
            (by simp [Goroutine.writing, Frame.writing, Op.enter]) h5r
    | some f =>
      cases f with
      | getRLock key =>
        cases w with
        | true =>
          simpa [System.step, hg, Goroutine.step, RWMutex.RLock, bind, Except.bind] using h
        | false =>
          have hstep :
              System.step (System.mk (Cache.mk (RWMutex.mk r false) data) gs out none) i =
                System.mk (Cache.mk (RWMutex.mk (r + 1) false) data)
                  (gs.set i (Goroutine.mk (some (.getLookup key)) todo ret))
                  (out ++ [Event.rlock]) none := by
            simp [System.step, hg, Goroutine.step, RWMutex.RLock, bind, Except.bind, pure,
              Except.pure]
          rw [hstep]
          exact hset _ _ _ _ _ hdata (by simp [Goroutine.reading, Frame.reading])
            (by simp [Goroutine.writing, Frame.writing]) (fun e => by cases e)
      | getLookup key =>
        have hstep : ∃ fr, fr.reading = true ∧ fr.writing = false ∧
            System.step (System.mk (Cache.mk (RWMutex.mk r w) data) gs out none) i =
              System.mk (Cache.mk (RWMutex.mk r w) data)
                (gs.set i (Goroutine.mk (some fr) todo ret)) out none := by
          cases hidx : GoMap.index data key with
          | mk value ok =>
            cases ok with
            | false =>
              exact ⟨.getPrintln, rfl, rfl, by simp [System.step, hg, Goroutine.step, hidx]⟩
            | true =>
              exact ⟨.getRUnlock value, rfl, rfl,
                by simp [System.step, hg, Goroutine.step, hidx]⟩
        obtain ⟨fr, hfr, hfw, hstep⟩ := hstep
        rw [hstep]
        have e1 : Goroutine.reading (Goroutine.mk (some fr) todo ret) = true := hfr
        have e2 : Goroutine.writing (Goroutine.mk (some fr) todo ret) = false := hfw
        exact hset _ _ _ _ _ hdata (by rw [e1]; rfl) (by rw [e2]; rfl) h5r
      | getPrintln =>
        have hstep : System.step (System.mk (Cache.mk (RWMutex.mk r w) data) gs out none) i =
            System.mk (Cache.mk (RWMutex.mk r w) data)
              (gs.set i (Goroutine.mk (some (.getRUnlock 0)) todo ret))
              (out ++ [Event.println "Cache miss"]) none := by
          simp [System.step, hg, Goroutine.step]
        rw [hstep]
        exact hset _ _ _ _ _ hdata (by simp [Goroutine.reading, Frame.reading])
          (by simp [Goroutine.writing, Frame.writing]) h5r
      | getRUnlock result =>
        have hr0 : r ≠ 0 := by
          have := hrpos rfl
          omega
        have hstep : System.step (System.mk (Cache.mk (RWMutex.mk r w) data) gs out none) i =
            System.mk (Cache.mk (RWMutex.mk (r - 1) w) data)
              (gs.set i (Goroutine.mk none todo (result :: ret)))
              (out ++ [Event.runlock]) none := by
          simp [System.step, hg, Goroutine.step, RWMutex.RUnlock, hr0, bind, Except.bind, pure,
            Except.pure]
        rw [hstep]
        refine hset _ _ _ _ _ hdata ?_ (by simp [Goroutine.writing, Frame.writing])
          (fun e => absurd (h5r e) hr0)
        simp only [Goroutine.reading, Frame.reading, Bool.toNat_true, Bool.toNat_false]
        omega
      | setLock key value =>
        by_cases hfree : w = false ∧ r = 0
        · obtain ⟨rfl, rfl⟩ := hfree
          have hstep :
              System.step (System.mk (Cache.mk (RWMutex.mk 0 false) data) gs out none) i =
                System.mk (Cache.mk (RWMutex.mk 0 true) data)
                  (gs.set i (Goroutine.mk (some (.setAssign key value)) todo ret))
                  (out ++ [Event.lock]) none := by
            simp [System.step, hg, Goroutine.step, RWMutex.Lock, bind, Except.bind, pure,
              Except.pure]
          rw [hstep]
          exact hset _ _ _ _ _ hdata (by simp [Goroutine.reading, Frame.reading])
            (by simp [Goroutine.writing, Frame.writing]) (fun _ => rfl)
        · have hb : (w || r != 0) = true := by
            cases w with
            | true => rfl
            | false =>
              have : r ≠ 0 := fun h0 => hfree ⟨rfl, h0⟩
              simp [this]
          simpa [System.step, hg, Goroutine.step, RWMutex.Lock, hb, bind, Except.bind] using h
      | setAssign key value =>
        cases data with
        | none => simp at hdata
        | some m =>
          have hstep :
              System.step (System.mk (Cache.mk (RWMutex.mk r w) (some m)) gs out none) i =
                System.mk
                  (Cache.mk (RWMutex.mk r w)
                    (some (GoMap.mk m.reserved (storeEntries m.entries key value))))
                  (gs.set i (Goroutine.mk (some .setUnlock) todo ret)) out none := by
            simp [System.step, hg, Goroutine.step, GoMap.assign, bind, Except.bind, pure,
              Except.pure]
          rw [hstep]
          exact hset _ _ _ _ _ rfl (by simp [Goroutine.reading, Frame.reading])
            (by simp [Goroutine.writing, Frame.writing]) h5r
      | setUnlock =>
        have hwt : w = true := by
          have := hwpos rfl
          cases w with
          | true => rfl
          | false =>
            simp only [Bool.toNat_false] at h4
            omega
        subst hwt
        have hstep :
            System.step (System.mk (Cache.mk (RWMutex.mk r true) data) gs out none) i =
              System.mk (Cache.mk (RWMutex.mk r false) data)
                (gs.set i (Goroutine.mk none todo ret)) (out ++ [Event.unlock]) none := by
          simp [System.step, hg, Goroutine.step, RWMutex.Unlock, bind, Except.bind, pure,
            Except.pure]
        rw [hstep]
        exact hset _ _ _ _ _ hdata (by simp [Goroutine.reading, Frame.reading])
          (by simp [Goroutine.writing, Frame.writing]) (fun e => by cases e)

/-- The agreement holds after every schedule. -/
theorem System.exec_consistent (s : System) (schedule : List Nat) (h : s.Consistent) :
    (s.exec schedule).Consistent := by
  induction schedule generalizing s with
  | nil => exact h
  | cons i rest ih => exact ih (s.step i) (System.step_consistent s i h)

theorem System.Consistent.exclusive {s : System} (h : s.Consistent) : s.Exclusive := by
  obtain ⟨-, -, -, hw⟩ := h
  rcases hw with ⟨-, h0⟩ | ⟨-, h1, h0⟩
  · exact Or.inl h0
  · exact Or.inr ⟨h1, h0⟩

/-- A goroutine about to take the shared lock does not move while a `Set` is inside
its critical section. -/
theorem System.step_reader_waits (s : System) (h : s.Consistent) (i : Nat) (g : Goroutine)
    (key : Int) (hg : s.goroutines[i]? = some g) (hf : g.frame = some (.getRLock key))
    (hw : s.writers = 1) : s.step i = s := by
  obtain ⟨hcr, -, -, hx⟩ := h
  have hwt : s.cache.mu.writer = true := by
    rcases hx with ⟨-, h0⟩ | ⟨h1, -⟩
    · omega
    · exact h1
  simp [System.step, hcr, hg, Goroutine.step, hf, RWMutex.RLock, hwt, bind, Except.bind]

/-- A goroutine about to take the exclusive lock does not move while a `Set` or any
`Get` is inside its critical section. -/
theorem System.step_writer_waits (s : System) (h : s.Consistent) (i : Nat) (g : Goroutine)
    (key value : Int) (hg : s.goroutines[i]? = some g)
    (hf : g.frame = some (.setLock key value)) (hw : s.writers = 1 ∨ 0 < s.readers) :
    s.step i = s := by
  obtain ⟨hcr, -, hr, hx⟩ := h
  have hb : (s.cache.mu.writer || s.cache.mu.readers != 0) = true := by
    rcases hw with hw | hw
    · rcases hx with ⟨-, h0⟩ | ⟨h1, -⟩
      · omega
      · simp [h1]
    · have : s.cache.mu.readers ≠ 0 := by omega
      simp [this]
  simp [System.step, hcr, hg, Goroutine.step, hf, RWMutex.Lock, hb, bind, Except.bind]

/-! ## Completed calls and the mutex -/

theorem Cache.Get_ok_writer {c c1 : Cache} {k r : Int} {tr : List Event}
    (h : c.Get k = .ok (r, tr, c1)) : c.mu.writer = false := by
  cases hw : c.mu.writer with
  | false => rfl
  | true => rw [Cache.Get_blocked c k hw] at h; cases h

theorem Cache.Set_ok_ready {c c1 : Cache} {k v : Int} {tr : List Event}
    (h : c.Set k v = .ok (tr, c1)) : c.Ready := by
  obtain ⟨⟨r, w⟩, data⟩ := c
  cases w with
  | true => simp [Cache.Set, RWMutex.Lock, bind, Except.bind] at h
  | false =>
    cases r with
    | succ n => simp [Cache.Set, RWMutex.Lock, bind, Except.bind] at h
    | zero =>
      cases data with
      | none => simp [Cache.Set, RWMutex.Lock, GoMap.assign, bind, Except.bind] at h
      | some g => exact Cache.ready_mk g

/-- A `Get` that returns leaves the whole cache as it found it. -/
theorem Cache.Get_ok_same {c c1 : Cache} {k r : Int} {tr : List Event}
    (h : c.Get k = .ok (r, tr, c1)) : c1 = c := by
  have he := Cache.Get_eq c k (Cache.Get_ok_writer h)
  rw [h] at he
  cases hf : c.find k <;> rw [hf] at he <;> simp at he <;> exact he.2.2

/-- A `Set` that returns has stored the value and touched no other key. -/
theorem Cache.Set_ok_frame {c c1 : Cache} {k v : Int} {tr : List Event}
    (h : c.Set k v = .ok (tr, c1)) :
    c1.find k = some v ∧ ∀ k', k' ≠ k → c1.find k' = c.find k' := by
  obtain ⟨c3, h3, -, hk, hother⟩ := Cache.Set_ready (Cache.Set_ok_ready h) k v
  rw [h] at h3
  simp at h3
  rw [h3.2]
  exact ⟨hk, hother⟩

/-- A call that returns removes no key. -/
theorem Cache.call_ok_keeps {c c1 : Cache} {op : Op} {o : Obs} (h : c.call op = .ok (o, c1))
    (k' : Int) (hk : (c.find k').isSome = true) : (c1.find k').isSome = true := by
  cases op with
  | get key =>
    cases hg : c.Get key with
    | error f => simp [Cache.call, hg, bind, Except.bind] at h
    | ok res =>
      obtain ⟨r, tr, c2⟩ := res
      simp [Cache.call, hg, bind, Except.bind, pure, Except.pure] at h
      rw [← h.2, Cache.Get_ok_same hg]
      exact hk
  | set key value =>
    cases hs : c.Set key value with
    | error f => simp [Cache.call, hs, bind, Except.bind] at h
    | ok res =>
      obtain ⟨tr, c2⟩ := res
      simp [Cache.call, hs, bind, Except.bind, pure, Except.pure] at h
      obtain ⟨hkey, hother⟩ := Cache.Set_ok_frame hs
      rw [← h.2]
      by_cases e : k' = key
      · rw [e, hkey]; rfl
      · rw [hother k' e]; exact hk

/-- A run that reaches its end removes no key. -/
theorem Cache.run_ok_keeps {c c2 : Cache} {ops : List Op} {os : List Obs}
    (h : c.run ops = .ok (os, c2)) (k' : Int) (hk : (c.find k').isSome = true) :
    (c2.find k').isSome = true := by
  induction ops generalizing c os with
  | nil =>
    simp [Cache.run, pure, Except.pure] at h
    rw [← h.2]
    exact hk
  | cons op rest ih =>
    cases hc : c.call op with
    | error f => simp [Cache.run, hc, bind, Except.bind] at h
    | ok r =>
      obtain ⟨o, cm⟩ := r
      cases hr : cm.run rest with
      | error f => simp [Cache.run, hc, hr, bind, Except.bind] at h
      | ok r2 =>
        obtain ⟨os2, ce⟩ := r2
        simp [Cache.run, hc, hr, bind, Except.bind, pure, Except.pure] at h
        obtain ⟨-, rfl⟩ := h
        exact ih hr (Cache.call_ok_keeps hc k' hk)

/-! ## A goroutine alone performs the sequential calls -/

/-- A goroutine running alone takes `Get` through its frames to the result, the
events and the cache of the sequential `Get`. -/
theorem System.lone_get (c c1 : Cache) (key v : Int) (tr out : List Event) (ret : List Int)
    (h : c.Get key = .ok (v, tr, c1)) :
    System.exec (System.mk c [Goroutine.mk none [Op.get key] ret] out none) [0, 0, 0, 0, 0] =
      System.mk c1 [Goroutine.mk none [] (v :: ret)] (out ++ tr) none := by
  have hw := Cache.Get_ok_writer h
  have he := Cache.Get_eq c key hw
  rw [h] at he
  obtain ⟨⟨r, w⟩, data⟩ := c
  simp only at hw
  subst hw
  cases data with
  | none =>
    simp [Cache.find, GoMap.find] at he
    obtain ⟨rfl, rfl, rfl⟩ := he
    simp [System.exec, System.step, Goroutine.step, Op.enter, GoMap.index, RWMutex.RLock,
      RWMutex.RUnlock, bind, Except.bind, pure, Except.pure]
  | some g =>
    cases hl : lookupEntries g.entries key with
    | none =>
      simp [Cache.find, GoMap.find, hl] at he
      obtain ⟨rfl, rfl, rfl⟩ := he
      simp [System.exec, System.step, Goroutine.step, Op.enter, GoMap.index, RWMutex.RLock,
        RWMutex.RUnlock, bind, Except.bind, pure, Except.pure, hl]
    | some x =>
      simp [Cache.find, GoMap.find, hl] at he
      obtain ⟨rfl, rfl, rfl⟩ := he
      simp [System.exec, System.step, Goroutine.step, Op.enter, GoMap.index, RWMutex.RLock,
        RWMutex.RUnlock, bind, Except.bind, pure, Except.pure, hl]

/-- A goroutine running alone takes `Set` through its frames to the events and the
cache of the sequential `Set`. -/
theorem System.lone_set (c c1 : Cache) (key value : Int) (tr out : List Event)
    (ret : List Int) (h : c.Set key value = .ok (tr, c1)) :
    System.exec (System.mk c [Goroutine.mk none [Op.set key value] ret] out none) [0, 0, 0, 0] =
      System.mk c1 [Goroutine.mk none [] ret] (out ++ tr) none := by
  obtain ⟨g, rfl⟩ := (Cache.Set_ok_ready h).exists_map
  rw [Cache.Set_eq] at h
  simp at h
  obtain ⟨rfl, rfl⟩ := h
  simp [System.exec, System.step, Goroutine.step, Op.enter, GoMap.assign, RWMutex.Lock,
    RWMutex.Unlock, RWMutex.free, bind, Except.bind, pure, Except.pure]

/-! ## The claims -/

/-- C1 (read-your-write): on every ready cache, for every key `k`, value `v` and every
sequence of `Set` calls none of which names `k`, running `Set(k, v)` and then that
sequence completes, and `Get(k)` on the cache so reached returns `v`, prints nothing
and leaves the cache as it is. -/
theorem read_your_write (c : Cache) (hc : c.Ready) (k v : Int) (sets : List (Int × Int))
    (hsets : ∀ p ∈ sets, p.1 ≠ k) :
    ∃ os c1 tr, c.run (Op.set k v :: setOps sets) = .ok (os, c1) ∧
      c1.Get k = .ok (v, tr, c1) ∧ notifications tr = [] := by
  obtain ⟨c0, h0, hr0, hf0, -⟩ := Cache.Set_ready hc k v
  obtain ⟨os, c1, h1, hr1, hf1⟩ := Cache.run_setOps_find hr0 k sets hsets
  have hcall : c.call (Op.set k v) =
      .ok ({ ret := none, trace := [Event.lock, Event.unlock] }, c0) := by
    simp [Cache.call, h0, bind, Except.bind, pure, Except.pure]
  refine ⟨{ ret := none, trace := [Event.lock, Event.unlock] } :: os, c1,
    [Event.rlock, Event.runlock], Cache.run_cons_ok hcall h1, ?_, rfl⟩
  exact Cache.Get_hit hr1.writer_false (hf1.trans hf0)

theorem read_your_write_witness :
    (NewCache 30).Ready ∧ (∀ p ∈ [((2 : Int), (5 : Int)), (3, 7)], p.1 ≠ 1) ∧
      ∃ os c1 tr, (NewCache 30).run (Op.set 1 9 :: setOps [(2, 5), (3, 7)]) = .ok (os, c1) ∧
        c1.Get 1 = .ok (9, tr, c1) ∧ notifications tr = [] :=
  ⟨NewCache_ready 30, by decide,
    read_your_write (NewCache 30) (NewCache_ready 30) 1 9 [(2, 5), (3, 7)] (by decide)⟩

/-- C2 (miss sentinel): for every capacity hint and key `k`, on the cache reached from
`NewCache(hint)` by any sequence of `Set` calls none of which names `k`, `Get(k)`
returns `0` and prints exactly one line, "Cache miss". -/
theorem miss_sentinel (hint k : Int) (sets : List (Int × Int))
    (hsets : ∀ p ∈ sets, p.1 ≠ k) :
    ∃ os c1 tr, (NewCache hint).run (setOps sets) = .ok (os, c1) ∧
      c1.Get k = .ok (0, tr, c1) ∧ notifications tr = ["Cache miss"] := by
  obtain ⟨os, c1, h1, hr1, hf1⟩ := Cache.run_setOps_find (NewCache_ready hint) k sets hsets
  refine ⟨os, c1, [Event.rlock, Event.println "Cache miss", Event.runlock], h1, ?_, rfl⟩
  exact Cache.Get_miss hr1.writer_false (hf1.trans (NewCache_find hint k))

theorem miss_sentinel_witness :
    (∀ p ∈ [((2 : Int), (5 : Int)), (3, 0)], p.1 ≠ 4) ∧
      ∃ os c1 tr, (NewCache 30).run (setOps [(2, 5), (3, 0)]) = .ok (os, c1) ∧
        c1.Get 4 = .ok (0, tr, c1) ∧ notifications tr = ["Cache miss"] :=
  ⟨by decide, miss_sentinel 30 4 [(2, 5), (3, 0)] (by decide)⟩

/-- C3 (overwrite, last write wins): on every ready cache, `Set(k, v1)` followed by
`Set(k, v2)` completes, `Get(k)` then returns `v2`, and the cache reached is the very
cache that `Set(k, v2)` alone produces. -/
theorem overwrite_last_wins (c : Cache) (hc : c.Ready) (k v1 v2 : Int) :
    ∃ os c2 tr, c.run [Op.set k v1, Op.set k v2] = .ok (os, c2) ∧
      c2.Get k = .ok (v2, tr, c2) ∧ notifications tr = [] ∧
      c.Set k v2 = .ok ([Event.lock, Event.unlock], c2) := by
  obtain ⟨g, rfl⟩ := hc.exists_map
  refine ⟨[{ ret := none, trace := [Event.lock, Event.unlock] },
      { ret := none, trace := [Event.lock, Event.unlock] }],
    { mu := RWMutex.free, data := some { g with entries := storeEntries g.entries k v2 } },
    [Event.rlock, Event.runlock], ?_, ?_, rfl, Cache.Set_eq g k v2⟩
  · simp [Cache.run, Cache.call, Cache.Set_eq, storeEntries_twice, bind, Except.bind, pure,
      Except.pure]
  · apply Cache.Get_hit (Cache.ready_mk _).writer_false
    simp [Cache.find, GoMap.find, lookupEntries_store_same]

theorem overwrite_last_wins_witness :
    (NewCache 30).Ready ∧
      ∃ os c2 tr, (NewCache 30).run [Op.set 7 1, Op.set 7 2] = .ok (os, c2) ∧
        c2.Get 7 = .ok (2, tr, c2) ∧ notifications tr = [] ∧
        (NewCache 30).Set 7 2 = .ok ([Event.lock, Event.unlock], c2) :=
  ⟨NewCache_ready 30, overwrite_last_wins (NewCache 30) (NewCache_ready 30) 7 1 2⟩

/-- C4 (the notification is the only miss signal): on every cache whose mutex no
writer holds, `Get(k)` returns, leaves the cache as it is, and prints "Cache miss"
exactly when `k` is absent; on a miss it returns `0` with exactly that one line, on a
hit it returns the stored value with no line, so a stored `0` and a miss return the
same value. -/
theorem miss_signal (c : Cache) (hw : c.mu.writer = false) (k : Int) :
    ∃ v tr, c.Get k = .ok (v, tr, c) ∧
      ("Cache miss" ∈ notifications tr ↔ c.find k = none) ∧
      (c.find k = none → v = 0 ∧ notifications tr = ["Cache miss"]) ∧
      (∀ w, c.find k = some w → v = w ∧ notifications tr = []) ∧
      (c.find k = some 0 → v = 0 ∧ notifications tr = []) := by
  cases hf : c.find k with
  | none =>
    exact ⟨0, _, Cache.Get_miss hw hf, by simp [notifications], by simp [notifications],
      by simp, by simp⟩
  | some w =>
    refine ⟨w, _, Cache.Get_hit hw hf, by simp [notifications], by simp, ?_, ?_⟩
    · intro w' hw'
      simp only [Option.some.injEq] at hw'
      exact ⟨hw', rfl⟩
    · intro h0
      simp only [Option.some.injEq] at h0
      exact ⟨h0, rfl⟩

theorem miss_signal_witness :
    zeroStored.mu.writer = false ∧
      ∃ v tr, zeroStored.Get 3 = .ok (v, tr, zeroStored) ∧
        ("Cache miss" ∈ notifications tr ↔ zeroStored.find 3 = none) ∧
        (zeroStored.find 3 = none → v = 0 ∧ notifications tr = ["Cache miss"]) ∧
        (∀ w, zeroStored.find 3 = some w → v = w ∧ notifications tr = []) ∧
        (zeroStored.find 3 = some 0 → v = 0 ∧ notifications tr = []) :=
  ⟨rfl, miss_signal zeroStored rfl 3⟩

/-- Caches that differ at most in the space their maps reserved behave alike. -/
theorem Cache.run_reserved_irrelevant (g1 g2 : GoMap) (h : g1.entries = g2.entries)
    (ops : List Op) :
    ∃ os d1 d2,
      Cache.run { mu := RWMutex.free, data := some g1 } ops =
        .ok (os, { mu := RWMutex.free, data := some d1 }) ∧
      Cache.run { mu := RWMutex.free, data := some g2 } ops =
        .ok (os, { mu := RWMutex.free, data := some d2 }) ∧
      d1.entries = d2.entries := by
  induction ops generalizing g1 g2 with
  | nil => exact ⟨[], g1, g2, rfl, rfl, h⟩
  | cons op rest ih =>
    cases op with
    | get key =>
      obtain ⟨os, d1, d2, h1, h2, hd⟩ := ih g1 g2 h
      have e1 := Cache.Get_eq { mu := RWMutex.free, data := some g1 } key rfl
      have e2 := Cache.Get_eq { mu := RWMutex.free, data := some g2 } key rfl
      have hf : Cache.find { mu := RWMutex.free, data := some g2 } key =
          Cache.find { mu := RWMutex.free, data := some g1 } key := by
        simp [Cache.find, GoMap.find, h]
      rw [hf] at e2
      cases hv : Cache.find { mu := RWMutex.free, data := some g1 } key with
      | none =>
        rw [hv] at e1 e2
        refine ⟨Obs.mk (some 0) [Event.rlock, Event.println "Cache miss", Event.runlock] :: os,
          d1, d2, ?_, ?_, hd⟩
        · exact Cache.run_cons_ok
            (by simp [Cache.call, e1, bind, Except.bind, pure, Except.pure]) h1
        · exact Cache.run_cons_ok
            (by simp [Cache.call, e2, bind, Except.bind, pure, Except.pure]) h2
      | some v =>
        rw [hv] at e1 e2
        refine ⟨{ ret := some v, trace := [Event.rlock, Event.runlock] } :: os,
          d1, d2, ?_, ?_, hd⟩
        · exact Cache.run_cons_ok
            (by simp [Cache.call, e1, bind, Except.bind, pure, Except.pure]) h1
        · exact Cache.run_cons_ok
            (by simp [Cache.call, e2, bind, Except.bind, pure, Except.pure]) h2
    | set key value =>
      obtain ⟨os, d1, d2, h1, h2, hd⟩ :=
        ih { g1 with entries := storeEntries g1.entries key value }
          { g2 with entries := storeEntries g2.entries key value } (by simp [h])
      refine ⟨{ ret := none, trace := [Event.lock, Event.unlock] } :: os, d1, d2, ?_, ?_, hd⟩
      · exact Cache.run_cons_ok
          (by simp [Cache.call, Cache.Set_eq, bind, Except.bind, pure, Except.pure]) h1
      · exact Cache.run_cons_ok
          (by simp [Cache.call, Cache.Set_eq, bind, Except.bind, pure, Except.pure]) h2

/-- C6 (the capacity hint is unobservable): for every two hints, non-negative ones in
particular, and every sequence of `Get`/`Set` calls, the run on `NewCache(c1)` and the
run on `NewCache(c2)` both complete and show the same returned values and the same
events call by call, and end in caches with the same mapping; and `NewCache(c)` is
empty, so `Get(k)` on it misses for every key. -/
theorem capacity_unobservable (c1 c2 : Int) (ops : List Op) :
    (∃ os e1 e2, (NewCache c1).run ops = .ok (os, e1) ∧ (NewCache c2).run ops = .ok (os, e2) ∧
      ∀ k, e1.find k = e2.find k) ∧
    ∀ k, (NewCache c1).find k = none ∧
      (NewCache c1).Get k =
        .ok (0, [Event.rlock, Event.println "Cache miss", Event.runlock], NewCache c1) := by
  constructor
  · obtain ⟨os, d1, d2, h1, h2, hd⟩ :=
      Cache.run_reserved_irrelevant { reserved := c1.toNat, entries := [] }
        { reserved := c2.toNat, entries := [] } rfl ops
    exact ⟨os, _, _, h1, h2, fun k => by simp [Cache.find, GoMap.find, hd]⟩
  · intro k
    exact ⟨rfl, Cache.Get_miss (NewCache_ready c1).writer_false (NewCache_find c1 k)⟩

/-- C7 (only `Set` mutates, nothing deletes): for every cache state and key `k`,
`Get(k)` returns whenever no writer holds the mutex, and every `Get(k)` that returns,
on the hit path and on the miss path alike, leaves the whole cache as it found it;
every `Set(k, v)` that returns has stored `v` under `k` and maps every other key
exactly as before, and `Set(k, v)` returns on every ready cache; every run of
`Get`/`Set` calls that reaches its end keeps every key that was present, and on a
ready cache every run reaches its end. -/
theorem only_set_mutates (c : Cache) (k v : Int) (ops : List Op) :
    (c.mu.writer = false → ∃ r tr, c.Get k = .ok (r, tr, c)) ∧
    (∀ r tr c1, c.Get k = .ok (r, tr, c1) → c1 = c) ∧
    (c.Ready → ∃ tr c1, c.Set k v = .ok (tr, c1)) ∧
    (∀ tr c1, c.Set k v = .ok (tr, c1) →
      c1.find k = some v ∧ ∀ k', k' ≠ k → c1.find k' = c.find k') ∧
    (c.Ready → ∃ os c2, c.run ops = .ok (os, c2)) ∧
    (∀ os c2, c.run ops = .ok (os, c2) →
      ∀ k', (c.find k').isSome = true → (c2.find k').isSome = true) := by
  refine ⟨?_, ?_, ?_, ?_, ?_, ?_⟩
  · intro hw
    cases hf : c.find k with
    | none => exact ⟨0, _, Cache.Get_miss hw hf⟩
    | some w => exact ⟨w, _, Cache.Get_hit hw hf⟩
  · intro r tr c1 h
    exact Cache.Get_ok_same h
  · intro hc
    obtain ⟨c1, h1, -⟩ := Cache.Set_ready hc k v
    exact ⟨_, c1, h1⟩
  · intro tr c1 h
    exact Cache.Set_ok_frame h
  · intro hc
    obtain ⟨os, c2, h2, -⟩ := Cache.run_ready hc ops
    exact ⟨os, c2, h2⟩
  · intro os c2 h k' hk
    exact Cache.run_ok_keeps h k' hk

theorem only_set_mutates_witness :
    stockedBusy.mu.writer = false ∧ stockedBusy.find 5 = some 7 ∧ stockedBusy.find 4 = none ∧
      (∃ r tr, stockedBusy.Get 5 = .ok (r, tr, stockedBusy)) ∧
      (∃ r tr, stockedBusy.Get 4 = .ok (r, tr, stockedBusy)) ∧
      stocked.Ready ∧ stocked.find 5 = some 7 ∧
      (∃ tr c1, stocked.Set 3 9 = .ok (tr, c1) ∧ c1.find 3 = some 9 ∧ c1.find 5 = some 7) ∧
      (∃ os c2, stocked.run [Op.set 5 1, Op.get 4, Op.set 8 8] = .ok (os, c2) ∧
        (c2.find 3).isSome = true ∧ (c2.find 5).isSome = true) := by
  refine ⟨rfl, rfl, rfl, (only_set_mutates stockedBusy 5 0 []).1 rfl,
    (only_set_mutates stockedBusy 4 0 []).1 rfl, ⟨rfl, rfl⟩, rfl, ?_, ?_⟩
  · obtain ⟨tr, c1, h⟩ := (only_set_mutates stocked 3 9 []).2.2.1 ⟨rfl, rfl⟩
    obtain ⟨hk, hother⟩ := (only_set_mutates stocked 3 9 []).2.2.2.1 tr c1 h
    exact ⟨tr, c1, h, hk, (hother 5 (by decide)).trans rfl⟩
  · obtain ⟨os, c2, h⟩ :=
      (only_set_mutates stocked 0 0 [Op.set 5 1, Op.get 4, Op.set 8 8]).2.2.2.2.1 ⟨rfl, rfl⟩
    have hkeep :=
      (only_set_mutates stocked 0 0 [Op.set 5 1, Op.get 4, Op.set 8 8]).2.2.2.2.2 os c2 h
    exact ⟨os, c2, h, hkeep 3 rfl, hkeep 5 rfl⟩

/-- C8 (`Set` and `Get` never fail on a constructed cache): for every capacity hint,
non-negative ones in particular, every sequence of `Get`/`Set` calls on
`NewCache(hint)` runs to its end; in the cache reached the map is allocated, so
`Set(k, v)` returns for all integers `k` and `v`, never taking the nil-map panic, and
`Get(k)` returns a value for every integer `k`. -/
theorem constructed_cache_never_fails (hint : Int) (ops : List Op) :
    ∃ os c, (NewCache hint).run ops = .ok (os, c) ∧ c.data.isSome = true ∧
      (∀ k v, ∃ r, c.Set k v = .ok r) ∧ (∀ k, ∃ r, c.Get k = .ok r) := by
  obtain ⟨os, c, h, hr⟩ := Cache.run_ready (NewCache_ready hint) ops
  refine ⟨os, c, h, hr.2, ?_, ?_⟩
  · intro k v
    obtain ⟨c1, h1, -⟩ := Cache.Set_ready hr k v
    exact ⟨_, h1⟩
  · intro k
    cases hf : c.find k with
    | none => exact ⟨_, Cache.Get_miss hr.writer_false hf⟩
    | some w => exact ⟨_, Cache.Get_hit hr.writer_false hf⟩

/-- C5 (demo scenario, run sequentially): on `NewCache(30)` the writer loop
`Set(i, i)`, `i = 0..29`, runs to its end and leaves the cache holding `i ↦ i`; on
that cache the reader loop runs to its end, its `i`-th `Get` returns `i`, and no round
prints a notification; likewise each single `Get(i)`, `i = 0..29`, returns `i` with no
event besides `RLock` and `RUnlock`. -/
theorem demo_scenario :
    (∃ tw, writer (NewCache 30) = .ok (tw, demoCache)) ∧
    (∃ rounds, reader demoCache = .ok (rounds, demoCache) ∧
      rounds.map Prod.fst = (List.range 30).map (fun i => (i : Int)) ∧
      rounds.map (fun round => notifications round.2) = List.replicate 30 []) ∧
    (List.range 30).map (fun i => demoCache.Get i) =
      (List.range 30).map (fun i => .ok ((i : Int), [Event.rlock, Event.runlock], demoCache)) :=
  ⟨⟨_, rfl⟩, ⟨_, rfl, rfl, rfl⟩, rfl⟩

/-- C9 (writer mutual exclusion): in every state that goroutines running `Get` and
`Set` calls reach from `NewCache(capacity)` under any schedule, either no `Set` is
inside its critical section, or exactly one is and no `Get` is; no step has panicked;
a goroutine about to `RLock` does not move while a `Set` is inside, and a goroutine
about to `Lock` does not move while a `Set` or any `Get` is inside. -/
theorem writer_mutual_exclusion (capacity : Int) (programs : List (List Op))
    (schedule : List Nat) :
    ((System.start capacity programs).exec schedule).Exclusive ∧
    ((System.start capacity programs).exec schedule).crashed = none ∧
    (∀ i g key, ((System.start capacity programs).exec schedule).goroutines[i]? = some g →
      g.frame = some (Frame.getRLock key) →
      ((System.start capacity programs).exec schedule).writers = 1 →
      ((System.start capacity programs).exec schedule).step i =
        (System.start capacity programs).exec schedule) ∧
    (∀ i g key value,
      ((System.start capacity programs).exec schedule).goroutines[i]? = some g →
      g.frame = some (Frame.setLock key value) →
      (((System.start capacity programs).exec schedule).writers = 1 ∨
        0 < ((System.start capacity programs).exec schedule).readers) →
      ((System.start capacity programs).exec schedule).step i =
        (System.start capacity programs).exec schedule) := by
  have h := System.exec_consistent _ schedule (System.start_consistent capacity programs)
  exact ⟨h.exclusive, h.1,
    fun i g key hg hf hw => System.step_reader_waits _ h i g key hg hf hw,
    fun i g key value hg hf hw => System.step_writer_waits _ h i g key value hg hf hw⟩

theorem writer_mutual_exclusion_witness :
    ((System.start 30 [[Op.set 1 1], [Op.get 1], [Op.set 2 2]]).exec [0, 0, 1, 2]).writers = 1 ∧
      ((System.start 30 [[Op.set 1 1], [Op.get 1], [Op.set 2 2]]).exec [0, 0, 1, 2]).step 1 =
        (System.start 30 [[Op.set 1 1], [Op.get 1], [Op.set 2 2]]).exec [0, 0, 1, 2] ∧
      ((System.start 30 [[Op.set 1 1], [Op.get 1], [Op.set 2 2]]).exec [0, 0, 1, 2]).step 2 =
        (System.start 30 [[Op.set 1 1], [Op.get 1], [Op.set 2 2]]).exec [0, 0, 1, 2] :=
  ⟨by decide,
    (writer_mutual_exclusion 30 [[Op.set 1 1], [Op.get 1], [Op.set 2 2]] [0, 0, 1, 2]).2.2.1
      1 { frame := some (Frame.getRLock 1), todo := [], returned := [] } 1 rfl rfl (by decide),
    (writer_mutual_exclusion 30 [[Op.set 1 1], [Op.get 1], [Op.set 2 2]] [0, 0, 1, 2]).2.2.2
      2 { frame := some (Frame.setLock 2 2), todo := [], returned := [] } 2 2 rfl rfl
      (Or.inl (by decide))⟩

end WbCache
